import Mathlib

/-!
Verification of the component-analyzer pipeline (src/app.py): a shallow
embedding of the identifier normalizer, the configured-prefix matcher, the
three-strategy PDF token extractor, the multiset comparator with its
post-filter, the highlight color assignment, the spreadsheet row
expansion and identifier counting, and the per-run temporary-file
discipline, together with theorems settling the specified properties.
-/

namespace Schematic

/-- Strings are modelled as lists of characters. -/
abbrev Str := List Char

/- §4.1 Identifier Normalizer (src/app.py line 157):
`re.sub(r'[^A-Za-z0-9]', '', word_tuple[4].strip()).upper()`. The
leading strip is subsumed by deleting every non-alphanumeric character. -/

/-- Canonicalize a raw token: drop every character that is not an ASCII
letter or digit, then uppercase the rest. -/
def normalize (s : Str) : Str := (s.filter Char.isAlphanum).map Char.toUpper

/- §4.2 Prefix Matcher (src/app.py lines 99-100 and 158-162). -/

/-- Partition of the configured prefixes: the single-letter ones (line 99). -/
def single_letter (ps : List Str) : List Str := ps.filter (fun p => p.length == 1)

/-- Partition of the configured prefixes: the multi-letter ones (line 100). -/
def multi_letter (ps : List Str) : List Str := ps.filter (fun p => decide (1 < p.length))

/-- Full-string match of one given prefix followed by one or more decimal
digits, the model of `re.match(r'^' + p + r'[0-9]+$', w)` (lines 159-161). -/
def matchPrefixDigits : Str → Str → Bool
  | [], w => !w.isEmpty && w.all Char.isDigit
  | _ :: _, [] => false
  | a :: ps, c :: cs => a == c && matchPrefixDigits ps cs

/-- The keep condition of extraction strategy 1 (lines 158-162): the word
starts with some configured prefix, and fully matches some single-letter
prefix followed by digits or some multi-letter prefix followed by digits. -/
def keepWord (ps : List Str) (w : Str) : Bool :=
  ps.any (fun p => p.isPrefixOf w) &&
  ((single_letter ps).any (fun p => matchPrefixDigits p w) ||
   (multi_letter ps).any (fun p => matchPrefixDigits p w))

/-- Specification side of §4.2, written from the spec's words: the
candidate equals one configured prefix followed by one or more decimal
digits with no remaining characters. -/
def specValidIdentifier (ps : List Str) (w : Str) : Prop :=
  ∃ p ∈ ps, ∃ ds : Str, ds ≠ [] ∧ (∀ c ∈ ds, c.isDigit = true) ∧ w = p ++ ds

/- §4.3 Token Extractor (src/app.py lines 152-188). -/

/-- Bounding region of a positioned token (the word_tuple coordinates
x0, y0, x1, y1 of line 222). -/
structure Rect where
  x0 : Int
  y0 : Int
  x1 : Int
  y1 : Int
  deriving DecidableEq, Repr

/-- One extraction observation: canonical identifier, 1-based page
number, and a bounding region when the producing strategy has native
positional data (strategy 1 only). -/
structure Observation where
  word : Str
  page : Nat
  box : Option Rect
  deriving DecidableEq, Repr

/-- Strategy 1 (lines 154-162): iterate pages in order (1-based), iterate
each page's positioned tokens, normalize each, keep per `keepWord` with
its page number and bounding region. -/
def extractNative (ps : List Str) : Nat → List (List (Str × Rect)) → List Observation
  | _, [] => []
  | n, pg :: rest =>
      pg.filterMap (fun tr =>
        if keepWord ps (normalize tr.1) then some ⟨normalize tr.1, n, some tr.2⟩ else none)
      ++ extractNative ps (n + 1) rest

/-- Outcome of one page of a fallback strategy, as delivered by the
external collaborator: `none` models the recognizer (pytesseract) or the
alternate text extractor (pdfplumber) throwing at that page; `some ws`
is the list of words the page contributes after the pure pattern scan
(the `re.findall` plus startswith filter of lines 170-172 and 182-184),
which itself cannot throw. -/
abbrev PageWords := Option (List Str)

/-- The append loop of a fallback strategy (lines 168-172 and 180-184):
pages are processed in order; an exception at a page aborts the loop via
the surrounding try/except, keeping the observations already appended to
the accumulator list, and sets the caught-error flag that the except
branch surfaces as `st.warning`. -/
def runPagesFallback : Nat → List PageWords → List Observation × Bool
  | _, [] => ([], false)
  | _, none :: _ => ([], true)
  | n, some ws :: rest =>
      let r := runPagesFallback (n + 1) rest
      (ws.map (fun w => ⟨w, n, none⟩) ++ r.1, r.2)

/-- A whole fallback strategy run (lines 166-174 and 178-186): a `none`
input models the initial external call (convert_from_path or
pdfplumber.open) throwing before any page is processed. -/
def runFallbackStrategy : Option (List PageWords) → List Observation × Bool
  | none => ([], true)
  | some pgs => runPagesFallback 1 pgs

/-- Result of the whole extraction, with flags recording which fallback
strategies ran and which surfaced a warning. -/
structure ExtractResult where
  components : List Observation
  ocrAttempted : Bool
  ocrWarned : Bool
  plumberAttempted : Bool
  plumberWarned : Bool
  deriving DecidableEq, Repr

/-- `extract_components_from_pdf` (lines 152-188): strategy 1 over the
native text layer; if it produced nothing, the OCR fallback; if still
nothing, the pdfplumber fallback. -/
def extract_components_from_pdf (ps : List Str) (pages : List (List (Str × Rect)))
    (ocr alt : Option (List PageWords)) : ExtractResult :=
  let c1 := extractNative ps 1 pages
  if c1.isEmpty then
    let r2 := runFallbackStrategy ocr
    if r2.1.isEmpty then
      let r3 := runFallbackStrategy alt
      ⟨r3.1, true, r2.2, true, r3.2⟩
    else ⟨r2.1, true, r2.2, false, false⟩
  else ⟨c1, false, false, false, false⟩

/-- Specification-side view of a fallback strategy's contribution: the
observations of consecutively numbered pages. -/
def numberedObs : Nat → List (List Str) → List Observation
  | _, [] => []
  | n, ws :: rest => ws.map (fun w => ⟨w, n, none⟩) ++ numberedObs (n + 1) rest

/- §4.4 Multiset Comparator (src/app.py lines 198-214 and 288-294).
The two inputs are identifier multisets, modelled as lists; Python sets
over them are modelled through `dedup` and membership. -/

/-- Identifiers whose occurrence count exceeds 1 (lines 203-204). -/
def repeatedIn (l : List Str) : List Str :=
  l.dedup.filter (fun w => decide (1 < l.count w))

/-- Difference of the two supports (lines 205-206). -/
def diffSupport (a b : List Str) : List Str :=
  a.dedup.filter (fun w => !b.contains w)

/-- The generic branch `[A-Z][0-9]+` of the post-filter regex (line 209):
any single uppercase letter followed by one or more digits. -/
def genericMatch : Str → Bool
  | [] => false
  | c :: ds => c.isUpper && !ds.isEmpty && ds.all Char.isDigit

/-- The full post-filter pattern of line 209,
`^(?:[A-Z][0-9]+|(?:P1|...|Pk)[0-9]+)$` over the configured prefixes. -/
def filterPattern (ps : List Str) (w : Str) : Bool :=
  genericMatch w || ps.any (fun p => matchPrefixDigits p w)

/-- `filter_components` (lines 208-209): keep an identifier iff its
upper-cased form matches the post-filter pattern. -/
def filter_components (ps : List Str) (comps : List Str) : List Str :=
  comps.filter (fun c => filterPattern ps (c.map Char.toUpper))

/-- `repeated_pdf` after the post-filter reassignment (lines 203, 211). -/
def repeated_pdf (ps pdfL : List Str) : List Str :=
  filter_components ps (repeatedIn pdfL)

/-- `repeated_excel` after the post-filter reassignment (lines 204, 212). -/
def repeated_excel (ps exL : List Str) : List Str :=
  filter_components ps (repeatedIn exL)

/-- `in_pdf_not_excel` after the post-filter reassignment (lines 205, 213). -/
def in_pdf_not_excel (ps pdfL exL : List Str) : List Str :=
  filter_components ps (diffSupport pdfL exL)

/-- `in_excel_not_pdf` after the post-filter reassignment (lines 206, 214). -/
def in_excel_not_pdf (ps pdfL exL : List Str) : List Str :=
  filter_components ps (diffSupport exL pdfL)

/-- The fifth condition set, `normal` (line 293): everything observed in
either source that is in none of the four filtered sets. -/
def normal_set (ps pdfL exL : List Str) : List Str :=
  (pdfL.dedup ++ exL.dedup).dedup.filter (fun w =>
    !((repeated_pdf ps pdfL).contains w || (repeated_excel ps exL).contains w ||
      (in_pdf_not_excel ps pdfL exL).contains w || (in_excel_not_pdf ps pdfL exL).contains w))

/-- Specification-side reading of the generic branch, from the spec's
words: a single uppercase ASCII letter followed by one or more digits. -/
def specGenericIdentifier (w : Str) : Prop :=
  ∃ c ds, w = c :: ds ∧ c.isUpper = true ∧ ds ≠ [] ∧ ∀ d ∈ ds, d.isDigit = true

/- §4.5 Annotation (src/app.py lines 217-244). -/

/-- RGB stroke color; the source uses the 0/1 triples of lines 229-237. -/
abbrev Color := Nat × Nat × Nat

/-- The 2-unit margin expansion of lines 223-226. -/
def expandRect (r : Rect) : Rect :=
  ⟨r.x0 - 2, r.y0 - 2, r.x1 + 2, r.y1 + 2⟩

/-- The color decision chain of lines 228-237. -/
def conditionColor (w : Str) (onlyDoc onlySheet repDoc repSheet : List Str) : Color :=
  if onlyDoc.contains w then (1, 1, 0)
  else if onlySheet.contains w then (0, 0, 1)
  else if repDoc.contains w then (1, 0, 0)
  else if repSheet.contains w then (0, 1, 1)
  else (0, 1, 0)

/-- `highlight_components` (lines 217-242): every observation carrying a
bounding region produces one marker at the margin-expanded region with
the color of `conditionColor`; region-less observations are skipped
(line 219). -/
def highlight_components (obs : List Observation)
    (onlyDoc onlySheet repDoc repSheet : List Str) : List (Rect × Color) :=
  obs.filterMap (fun o =>
    match o.box with
    | none => none
    | some r => some (expandRect r, conditionColor o.word onlyDoc onlySheet repDoc repSheet))

/-- Specification-side priority resolution: the color of the first set in
the priority list containing the identifier, else the default color. -/
def priorityColor (w : Str) : List (List Str × Color) → Color → Color
  | [], dflt => dflt
  | (s, col) :: rest, dflt => if w ∈ s then col else priorityColor w rest dflt

/- §5 Resource discipline (src/app.py lines 52-58, error stops at lines
71, 134, 141, 195, 269, 337, and the cleanup block at lines 359-364). -/

/-- The per-run on-disk files: the two temporary copies of the uploads
and the three generated outputs. -/
inductive RunFile
  | tmpExcel
  | tmpPdf
  | outExcel
  | outPdf
  | outReport
  deriving DecidableEq, Repr

/-- How a run ends: normally, or aborted by `st.stop()` after an error. -/
inductive RunOutcome
  | success
  | stopped
  deriving DecidableEq, Repr

/-- Success or failure of each fallible external step of one run, in
program order. -/
structure RunFlags where
  readExcelOk : Bool
  saveExcelOk : Bool
  rereadExcelOk : Bool
  openPdfOk : Bool
  savePdfOk : Bool
  saveReportOk : Bool
  deriving DecidableEq, Repr

/-- The file-level control flow of one processing run: the temporary
copies are created up front (lines 52-58); each fallible step either
proceeds (creating its output file where applicable) or stops the run
via `st.error` + `st.stop()`; only the success path reaches the cleanup
block (lines 359-364) that unlinks every per-run file. -/
def runPipeline (f : RunFlags) : RunOutcome × List RunFile :=
  let files := [RunFile.tmpExcel, RunFile.tmpPdf]
  if !f.readExcelOk then (.stopped, files)
  else if !f.saveExcelOk then (.stopped, files)
  else
    let files := files ++ [RunFile.outExcel]
    if !f.rereadExcelOk then (.stopped, files)
    else if !f.openPdfOk then (.stopped, files)
    else if !f.savePdfOk then (.stopped, files)
    else
      let files := files ++ [RunFile.outPdf]
      if !f.saveReportOk then (.stopped, files)
      else (.success, [])

/- Spreadsheet expansion and counting (src/app.py lines 106-127 and
144-149). -/

/-- A cell of a selected column: `none` models a missing (NaN) value. -/
abbrev Cell := Option Str

/-- Python str.strip: drop whitespace from both ends. -/
def pyStrip (s : Str) : Str :=
  ((s.dropWhile Char.isWhitespace).reverse.dropWhile Char.isWhitespace).reverse

/-- Python str.split on a comma: the chunks between commas, in order
(an input without commas yields itself as its only chunk). -/
def splitOnCommas : Str → List Str
  | [] => [[]]
  | c :: cs =>
    match splitOnCommas cs with
    | [] => [[]]
    | g :: gs => if c = ',' then [] :: g :: gs else (c :: g) :: gs

/-- Lines 111 and 147: split a cell's text on commas, drop chunks that
strip to nothing, and return the stripped, upper-cased rest in order. -/
def cellComponents (s : Str) : List Str :=
  (splitOnCommas s).filterMap (fun c =>
    if pyStrip c = [] then none else some ((pyStrip c).map Char.toUpper))

/-- Line 110's guard: a cell contributes its split components only when
it is present (`pd.notna`) and strips to something non-empty. -/
def cellContribution (c : Cell) : List Str :=
  match c with
  | none => []
  | some s => if pyStrip s = [] then [] else cellComponents s

/-- Lines 108-112: the per-row set of identifiers collected across the
selected columns. The Python set is modelled by deduplication — only
membership and sorted order are consumed downstream. -/
def row_components (cells : List Cell) : List Str :=
  (cells.flatMap cellContribution).dedup

/-- Lines 114-122: the Merged Components values produced for one row —
one per distinct identifier in ascending order, or a single empty value
when the row has none. -/
def expand_row (cells : List Cell) : List Str :=
  let comps := row_components cells
  if comps.isEmpty then [[]] else comps.insertionSort (· ≤ ·)

/-- One output row per merged value, carrying the original row's data
unchanged (`row.copy()` of lines 116 and 120, with only the added
Merged Components column varying). -/
def expand_row_full {α : Type} (orig : α) (cells : List Cell) : List (α × Str) :=
  (expand_row cells).map (fun m => (orig, m))

/-- Lines 106-122: expansion of the whole table, row by row. -/
def expand_table {α : Type} (rows : List (α × List Cell)) : List (α × Str) :=
  rows.flatMap (fun rc => expand_row_full rc.1 rc.2)

/-- Lines 144-149: the spreadsheet identifier counter, built by
re-splitting the Merged Components column of the expanded table. An
empty merged value contributes nothing (it splits to no identifiers; in
the app it also reads back from disk as NaN and is dropped — same
effect). -/
def excel_counts {α : Type} (table : List (α × Str)) (w : Str) : Nat :=
  (table.flatMap (fun rc => cellComponents rc.2)).count w

/-- A component produced by a row is in canonical form: non-empty,
already stripped, already upper-cased, and comma-free. -/
def canonicalToken (m : Str) : Prop :=
  m ≠ [] ∧ pyStrip m = m ∧ m.map Char.toUpper = m ∧ ',' ∉ m

/- Auxiliary facts about `Char.toUpper`, the model of Python `str.upper`
on the (ASCII) identifier alphabet. -/

theorem char_eq_iff_toNat (c d : Char) : c = d ↔ c.toNat = d.toNat := by
  constructor
  · intro h; rw [h]
  · intro h
    exact Char.ext (UInt32.toNat.inj h)

theorem char_toNat_ofNat (n : Nat) (h : n.isValidChar) : (Char.ofNat n).toNat = n := by
  simp [Char.ofNat, h, Char.ofNatAux, Char.toNat, UInt32.toNat]

theorem toUpper_toNat_of_lower (c : Char) (h : 97 ≤ c.toNat ∧ c.toNat ≤ 122) :
    c.toUpper.toNat = c.toNat - 32 := by
  have hv : (c.toNat - 32).isValidChar := by left; omega
  simp only [Char.toUpper]
  rw [if_pos (by omega), char_toNat_ofNat _ hv]

theorem toUpper_eq_self_of_not_lower (c : Char) (h : ¬(97 ≤ c.toNat ∧ c.toNat ≤ 122)) :
    c.toUpper = c := by
  simp only [Char.toUpper]
  rw [if_neg (by omega)]

theorem toUpper_toUpper (c : Char) : c.toUpper.toUpper = c.toUpper := by
  by_cases h : 97 ≤ c.toNat ∧ c.toNat ≤ 122
  · have ht := toUpper_toNat_of_lower c h
    exact toUpper_eq_self_of_not_lower _ (by omega)
  · rw [toUpper_eq_self_of_not_lower c h, toUpper_eq_self_of_not_lower c h]

theorem isWhitespace_iff_toNat (c : Char) :
    c.isWhitespace = true ↔ c.toNat = 32 ∨ c.toNat = 9 ∨ c.toNat = 10 ∨ c.toNat = 13 := by
  have h1 : (' ').toNat = 32 := by decide
  have h2 : ('\t').toNat = 9 := by decide
  have h3 : ('\n').toNat = 10 := by decide
  have h4 : ('\x0d').toNat = 13 := by decide
  simp [Char.isWhitespace, char_eq_iff_toNat, h1, h2, h3, h4]
  tauto

theorem toUpper_isWhitespace (c : Char) : c.toUpper.isWhitespace = c.isWhitespace := by
  by_cases h : 97 ≤ c.toNat ∧ c.toNat ≤ 122
  · have ht := toUpper_toNat_of_lower c h
    have h1 : c.toUpper.isWhitespace = false := by
      rw [Bool.eq_false_iff, Ne, isWhitespace_iff_toNat, ht]
      omega
    have h2 : c.isWhitespace = false := by
      rw [Bool.eq_false_iff, Ne, isWhitespace_iff_toNat]
      omega
    rw [h1, h2]
  · rw [toUpper_eq_self_of_not_lower c h]

theorem toUpper_eq_comma (c : Char) (h : c.toUpper = ',') : c = ',' := by
  by_cases hl : 97 ≤ c.toNat ∧ c.toNat ≤ 122
  · have ht := toUpper_toNat_of_lower c hl
    rw [h] at ht
    have h44 : (',').toNat = 44 := by decide
    rw [h44] at ht
    omega
  · rwa [toUpper_eq_self_of_not_lower c hl] at h

theorem matchPrefixDigits_iff (p w : Str) :
    matchPrefixDigits p w = true ↔
      ∃ ds : Str, ds ≠ [] ∧ (∀ c ∈ ds, c.isDigit = true) ∧ w = p ++ ds := by
  induction p generalizing w with
  | nil =>
    cases w with
    | nil => simp [matchPrefixDigits]
    | cons c cs =>
      simp only [matchPrefixDigits, List.nil_append]
      constructor
      · intro h
        simp only [Bool.and_eq_true, List.all_eq_true, List.isEmpty_cons] at h
        exact ⟨c :: cs, by simp, fun x hx => h.2 x hx, rfl⟩
      · rintro ⟨ds, hne, hdig, rfl⟩
        simp only [Bool.and_eq_true, List.all_eq_true]
        exact ⟨by simp, hdig⟩
  | cons a ps ih =>
    cases w with
    | nil =>
      simp only [matchPrefixDigits]
      constructor
      · intro h; simp at h
      · rintro ⟨ds, hne, hdig, h⟩
        simp at h
    | cons c cs =>
      simp only [matchPrefixDigits, Bool.and_eq_true, beq_iff_eq, ih]
      constructor
      · rintro ⟨rfl, ds, hne, hdig, rfl⟩
        exact ⟨ds, hne, hdig, rfl⟩
      · rintro ⟨ds, hne, hdig, h⟩
        rw [List.cons_append] at h
        injection h with h1 h2
        exact ⟨h1.symm, ds, hne, hdig, h2⟩

theorem specValid_iff_any (ps : List Str) (w : Str) :
    specValidIdentifier ps w ↔ ps.any (fun p => matchPrefixDigits p w) = true := by
  simp [specValidIdentifier, List.any_eq_true, matchPrefixDigits_iff]

theorem matchPrefixDigits_isPrefixOf (p w : Str) (h : matchPrefixDigits p w = true) :
    p.isPrefixOf w = true := by
  obtain ⟨ds, _, _, rfl⟩ := (matchPrefixDigits_iff p w).mp h
  simp [List.isPrefixOf_iff_prefix]

/-- C6: in extraction strategy 1, a positioned text token is kept as an
observation iff its normalized form equals exactly one configured prefix
followed by one or more decimal digits with no remaining characters; a
string that merely starts with a prefix, has trailing non-digit
characters, or has no digits is never kept. -/
theorem native_keep_iff_valid (ps : List Str) (hps : ∀ p ∈ ps, p ≠ []) (t : Str) :
    keepWord ps (normalize t) = true ↔ specValidIdentifier ps (normalize t) := by
  generalize normalize t = w
  constructor
  · intro h
    simp only [keepWord, Bool.and_eq_true, Bool.or_eq_true, List.any_eq_true] at h
    rw [specValid_iff_any, List.any_eq_true]
    rcases h.2 with ⟨p, hp, hm⟩ | ⟨p, hp, hm⟩
    · exact ⟨p, List.mem_of_mem_filter hp, hm⟩
    · exact ⟨p, List.mem_of_mem_filter hp, hm⟩
  · intro h
    obtain ⟨p, hp, ds, hne, hdig, rfl⟩ := h
    have hm : matchPrefixDigits p (p ++ ds) = true := by
      rw [matchPrefixDigits_iff]
      exact ⟨ds, hne, hdig, rfl⟩
    simp only [keepWord, Bool.and_eq_true, Bool.or_eq_true, List.any_eq_true]
    refine ⟨⟨p, hp, matchPrefixDigits_isPrefixOf _ _ hm⟩, ?_⟩
    have hlen : p.length ≠ 0 := by
      intro h0
      exact hps p hp (List.length_eq_zero.mp h0)
    by_cases h1 : p.length = 1
    · exact Or.inl ⟨p, List.mem_filter.mpr ⟨hp, by simp [h1]⟩, hm⟩
    · exact Or.inr ⟨p, List.mem_filter.mpr ⟨hp, by simp; omega⟩, hm⟩

/-- C6 witness: with configured prefix R, the token "r12" normalizes to
R12 and is a valid identifier, hence kept by strategy 1. -/
theorem native_keep_iff_valid_witness :
    specValidIdentifier [['R']] (normalize ['r', '1', '2']) :=
  (native_keep_iff_valid [['R']] (by decide) ['r', '1', '2']).mp (by decide)

/-- C7: extraction is a strict fallback chain: the OCR strategy is
attempted exactly when strategy 1 produced an empty list, the pdfplumber
strategy exactly when the OCR strategy was attempted and also produced an
empty list, and the returned observations are those of the first strategy
that produced a non-empty list. -/
theorem extract_fallback_chain (ps : List Str) (pages : List (List (Str × Rect)))
    (ocr alt : Option (List PageWords)) :
    ((extract_components_from_pdf ps pages ocr alt).ocrAttempted = true ↔
      extractNative ps 1 pages = []) ∧
    ((extract_components_from_pdf ps pages ocr alt).plumberAttempted = true ↔
      (extractNative ps 1 pages = [] ∧ (runFallbackStrategy ocr).1 = [])) ∧
    (extractNative ps 1 pages ≠ [] →
      (extract_components_from_pdf ps pages ocr alt).components = extractNative ps 1 pages) ∧
    (extractNative ps 1 pages = [] → (runFallbackStrategy ocr).1 ≠ [] →
      (extract_components_from_pdf ps pages ocr alt).components = (runFallbackStrategy ocr).1) ∧
    (extractNative ps 1 pages = [] → (runFallbackStrategy ocr).1 = [] →
      (extract_components_from_pdf ps pages ocr alt).components = (runFallbackStrategy alt).1) := by
  by_cases h1 : extractNative ps 1 pages = []
  · by_cases h2 : (runFallbackStrategy ocr).1 = []
    · simp [extract_components_from_pdf, h1, h2, List.isEmpty_iff]
    · simp [extract_components_from_pdf, h1, h2, List.isEmpty_iff]
  · simp [extract_components_from_pdf, h1, List.isEmpty_iff]

/-- C7 witness: with no native text layer and an OCR pass yielding U7 on
page 1, the OCR strategy is attempted, its observation list is returned,
and the pdfplumber strategy is not attempted. -/
theorem extract_fallback_chain_witness :
    (extract_components_from_pdf [['U']] [] (some [some [['U', '7']]]) none).components
        = [⟨['U', '7'], 1, none⟩] ∧
    (extract_components_from_pdf [['U']] [] (some [some [['U', '7']]]) none).plumberAttempted
        = false := by
  have h := extract_fallback_chain [['U']] [] (some [some [['U', '7']]]) none
  exact ⟨h.2.2.2.1 rfl (by decide), by decide⟩

/-- C8 counterexample: strategy 1 finds nothing; the OCR recognizer
yields U7 on page 1 and throws on page 2. The error is caught and a
warning raised, but the strategy is not treated as having produced zero
observations: the append made before the failure survives and is
returned as the extraction result. -/
theorem ocr_partial_results_cex :
    (extract_components_from_pdf [['U']] []
        (some [some [['U', '7']], none]) none).ocrWarned = true ∧
    (extract_components_from_pdf [['U']] []
        (some [some [['U', '7']], none]) none).components = [⟨['U', '7'], 1, none⟩] := by
  decide

/-- C8 (amended): an internal error in a fallback strategy is caught
locally and surfaced as a warning rather than raised, and extraction
always returns a plain (worst case empty) observation list; but an
erroring strategy contributes exactly the observations appended before
the first failing page — not necessarily zero — and a failure of the
initial external call contributes none. -/
theorem fallback_error_handling (pgs : List PageWords) (n : Nat) :
    ((runPagesFallback n pgs).1
        = numberedObs n ((pgs.takeWhile Option.isSome).filterMap id) ∧
      ((runPagesFallback n pgs).2 = true ↔ none ∈ pgs)) ∧
    runFallbackStrategy none = ([], true) := by
  refine ⟨?_, rfl⟩
  induction pgs generalizing n with
  | nil => simp [runPagesFallback, numberedObs]
  | cons hd tl ih =>
    cases hd with
    | none => simp [runPagesFallback, List.takeWhile, numberedObs]
    | some ws =>
      have h := ih (n + 1)
      simp only [runPagesFallback, List.takeWhile_cons, Option.isSome_some,
        List.filterMap_cons, List.mem_cons]
      constructor
      · simp [numberedObs, h.1]
      · simp [h.2]

theorem mem_filter_components {ps comps : List Str} {w : Str} :
    w ∈ filter_components ps comps ↔
      w ∈ comps ∧ filterPattern ps (w.map Char.toUpper) = true := by
  simp [filter_components, List.mem_filter]

theorem mem_repeatedIn {l : List Str} {w : Str} :
    w ∈ repeatedIn l ↔ w ∈ l ∧ 1 < l.count w := by
  simp [repeatedIn, List.mem_filter, List.mem_dedup]

theorem mem_diffSupport {a b : List Str} {w : Str} :
    w ∈ diffSupport a b ↔ w ∈ a ∧ w ∉ b := by
  simp [diffSupport, List.mem_filter, List.mem_dedup]

theorem mem_normal_set {ps pdfL exL : List Str} {w : Str} :
    w ∈ normal_set ps pdfL exL ↔
      (w ∈ pdfL ∨ w ∈ exL) ∧ w ∉ repeated_pdf ps pdfL ∧ w ∉ repeated_excel ps exL ∧
      w ∉ in_pdf_not_excel ps pdfL exL ∧ w ∉ in_excel_not_pdf ps pdfL exL := by
  simp [normal_set, List.mem_filter, List.mem_dedup, List.mem_append]
  tauto

theorem genericMatch_iff (w : Str) :
    genericMatch w = true ↔ specGenericIdentifier w := by
  cases w with
  | nil => simp [genericMatch, specGenericIdentifier]
  | cons c ds =>
    simp only [genericMatch, Bool.and_eq_true, List.all_eq_true, specGenericIdentifier]
    constructor
    · rintro ⟨⟨hu, hne⟩, hdig⟩
      exact ⟨c, ds, rfl, hu, by simpa using hne, hdig⟩
    · rintro ⟨c', ds', heq, hu, hne, hdig⟩
      injection heq with h1 h2
      subst h1; subst h2
      exact ⟨⟨hu, by simpa using hne⟩, hdig⟩

/-- C3 counterexample: with configured prefixes {R}, the identifier T1
equals no configured prefix followed by digits, yet the post-filter keeps
it via the generic single-letter alternative of its regex. -/
theorem post_filter_generic_cex :
    ['T', '1'] ∈ filter_components [['R']] [['T', '1']] ∧
    ¬ specValidIdentifier [['R']] ['T', '1'] := by
  constructor
  · decide
  · rw [specValid_iff_any]; decide

/-- C3 (amended): the post-filter keeps an identifier iff its upper-cased
form is a single uppercase letter followed by one or more digits, or some
configured prefix followed by one or more digits; an identifier can
therefore survive the filter without matching any configured prefix. -/
theorem filter_components_spec (ps comps : List Str) (w : Str) :
    w ∈ filter_components ps comps ↔
      w ∈ comps ∧ (specGenericIdentifier (w.map Char.toUpper) ∨
        specValidIdentifier ps (w.map Char.toUpper)) := by
  rw [mem_filter_components, specValid_iff_any, ← genericMatch_iff]
  simp [filterPattern]

/-- C2 counterexample: with configured prefixes {R}, the stray word THE1
matches no configured prefix pattern and is dropped from the four derived
sets by the post-filter, yet it is not excluded from every condition set:
present only in the spreadsheet, it lands in the normal set. -/
theorem stray_word_normal_cex :
    ¬ specValidIdentifier [['R']] ['T', 'H', 'E', '1'] ∧
    ['T', 'H', 'E', '1'] ∈ normal_set [['R']] [] [['T', 'H', 'E', '1']] := by
  constructor
  · rw [specValid_iff_any]; decide
  · decide

/-- C2 (amended): an identifier whose upper-cased form matches neither the
generic single-uppercase-letter-plus-digits pattern nor any configured
prefix followed by digits is absent from each of the four derived sets
after the post-filter; it is not absent from the normal set — if it was
observed in either source it appears there. -/
theorem invalid_absent_from_derived_sets (ps pdfL exL : List Str) (w : Str)
    (h : filterPattern ps (w.map Char.toUpper) = false) :
    w ∉ repeated_pdf ps pdfL ∧ w ∉ repeated_excel ps exL ∧
    w ∉ in_pdf_not_excel ps pdfL exL ∧ w ∉ in_excel_not_pdf ps pdfL exL ∧
    ((w ∈ pdfL ∨ w ∈ exL) → w ∈ normal_set ps pdfL exL) := by
  have hmem : ∀ comps, w ∉ filter_components ps comps := by
    intro comps hc
    rw [mem_filter_components, h] at hc
    exact absurd hc.2 (by simp)
  refine ⟨hmem _, hmem _, hmem _, hmem _, ?_⟩
  intro hw
  rw [mem_normal_set]
  exact ⟨hw, hmem _, hmem _, hmem _, hmem _⟩

/-- C2 witness: XYZ9 with configured prefixes {R} fails the post-filter
pattern, is observed only in the spreadsheet, and appears in the normal
set. -/
theorem invalid_absent_from_derived_sets_witness :
    ['X', 'Y', 'Z', '9'] ∈ normal_set [['R']] [] [['X', 'Y', 'Z', '9']] :=
  (invalid_absent_from_derived_sets [['R']] [] [['X', 'Y', 'Z', '9']]
    ['X', 'Y', 'Z', '9'] (by decide)).2.2.2.2 (Or.inr (by decide))

/-- C1 counterexample: with the document containing R1 twice and an empty
spreadsheet, R1 is listed on two different report sheets — it is both in
the repeated-in-document set and in the only-in-document set. -/
theorem report_sheet_overlap_cex :
    ['R', '1'] ∈ repeated_pdf [['R']] [['R', '1'], ['R', '1']] ∧
    ['R', '1'] ∈ in_pdf_not_excel [['R']] [['R', '1'], ['R', '1']] [] := by
  decide

/-- C1 (amended): every identifier in the detailed report appears on at
least one of the five sheets — the five condition sets jointly cover
exactly the identifiers observed in either source — and the normal sheet
shares no identifier with the other four; but an identifier may be listed
on two of the four non-normal sheets, so the sheets are not pairwise
disjoint. -/
theorem report_sheets_cover (ps pdfL exL : List Str) :
    (∀ w, w ∈ normal_set ps pdfL exL →
      w ∉ repeated_pdf ps pdfL ∧ w ∉ repeated_excel ps exL ∧
      w ∉ in_pdf_not_excel ps pdfL exL ∧ w ∉ in_excel_not_pdf ps pdfL exL) ∧
    (∀ w, (w ∈ repeated_pdf ps pdfL ∨ w ∈ repeated_excel ps exL ∨
        w ∈ in_pdf_not_excel ps pdfL exL ∨ w ∈ in_excel_not_pdf ps pdfL exL ∨
        w ∈ normal_set ps pdfL exL) ↔ (w ∈ pdfL ∨ w ∈ exL)) := by
  constructor
  · intro w hw
    exact (mem_normal_set.mp hw).2
  · intro w
    constructor
    · rintro (h | h | h | h | h)
      · exact Or.inl (mem_repeatedIn.mp (mem_filter_components.mp h).1).1
      · exact Or.inr (mem_repeatedIn.mp (mem_filter_components.mp h).1).1
      · exact Or.inl (mem_diffSupport.mp (mem_filter_components.mp h).1).1
      · exact Or.inr (mem_diffSupport.mp (mem_filter_components.mp h).1).1
      · exact (mem_normal_set.mp h).1
    · intro hw
      by_cases h1 : w ∈ repeated_pdf ps pdfL
      · exact Or.inl h1
      by_cases h2 : w ∈ repeated_excel ps exL
      · exact Or.inr (Or.inl h2)
      by_cases h3 : w ∈ in_pdf_not_excel ps pdfL exL
      · exact Or.inr (Or.inr (Or.inl h3))
      by_cases h4 : w ∈ in_excel_not_pdf ps pdfL exL
      · exact Or.inr (Or.inr (Or.inr (Or.inl h4)))
      · exact Or.inr (Or.inr (Or.inr (Or.inr
          (mem_normal_set.mpr ⟨hw, h1, h2, h3, h4⟩))))

/-- C1 witness: a spreadsheet-only identifier R2 is reported on at least
one of the five sheets. -/
theorem report_sheets_cover_witness :
    ['R', '2'] ∈ repeated_pdf [['R']] [] ∨ ['R', '2'] ∈ repeated_excel [['R']] [['R', '2']] ∨
    ['R', '2'] ∈ in_pdf_not_excel [['R']] [] [['R', '2']] ∨
    ['R', '2'] ∈ in_excel_not_pdf [['R']] [] [['R', '2']] ∨
    ['R', '2'] ∈ normal_set [['R']] [] [['R', '2']] :=
  ((report_sheets_cover [['R']] [] [['R', '2']]).2 ['R', '2']).mpr (Or.inr (by decide))

theorem conditionColor_eq_priority (w : Str) (a b c d : List Str) :
    conditionColor w a b c d =
      priorityColor w [(a, (1, 1, 0)), (b, (0, 0, 1)), (c, (1, 0, 0)), (d, (0, 1, 1))]
        (0, 1, 0) := by
  by_cases h1 : w ∈ a <;> by_cases h2 : w ∈ b <;> by_cases h3 : w ∈ c <;> by_cases h4 : w ∈ d <;>
    simp [conditionColor, priorityColor, h1, h2, h3, h4]

/-- C5: every observation that carries a bounding region is drawn at its
margin-expanded region with the color of the highest-priority set
containing its identifier, in the fixed order only-in-document (yellow)
> only-in-spreadsheet (blue) > repeated-in-document (red) >
repeated-in-spreadsheet (cyan) > normal (green, the default used when
the identifier is in none of the four sets). -/
theorem highlight_color_priority (obs : List Observation)
    (onlyDoc onlySheet repDoc repSheet : List Str) (o : Observation) (r : Rect)
    (ho : o ∈ obs) (hr : o.box = some r) :
    (expandRect r,
        priorityColor o.word
          [(onlyDoc, (1, 1, 0)), (onlySheet, (0, 0, 1)),
           (repDoc, (1, 0, 0)), (repSheet, (0, 1, 1))] (0, 1, 0))
      ∈ highlight_components obs onlyDoc onlySheet repDoc repSheet := by
  rw [← conditionColor_eq_priority]
  apply List.mem_filterMap.mpr
  refine ⟨o, ho, ?_⟩
  rw [hr]

/-- C5 witness: a single boxed observation of R1, with R1 in the
only-in-document set, is drawn in yellow at the expanded region. -/
theorem highlight_color_priority_witness :
    (expandRect ⟨0, 0, 4, 4⟩,
        priorityColor ['R', '1']
          [([['R', '1']], (1, 1, 0)), ([], (0, 0, 1)), ([], (1, 0, 0)), ([], (0, 1, 1))]
          (0, 1, 0))
      ∈ highlight_components [⟨['R', '1'], 1, some ⟨0, 0, 4, 4⟩⟩] [['R', '1']] [] [] [] :=
  highlight_color_priority [⟨['R', '1'], 1, some ⟨0, 0, 4, 4⟩⟩] [['R', '1']] [] [] []
    ⟨['R', '1'], 1, some ⟨0, 0, 4, 4⟩⟩ ⟨0, 0, 4, 4⟩ (by decide) rfl

/-- C4 counterexample: a run whose spreadsheet cannot be read stops with
both temporary input copies still on disk — a failure path that does not
delete the per-run temporary files. -/
theorem cleanup_failure_cex :
    (runPipeline ⟨false, true, true, true, true, true⟩).1 = .stopped ∧
    (runPipeline ⟨false, true, true, true, true, true⟩).2 ≠ [] := by
  decide

/-- C4 (amended): a successful run deletes every per-run file by run end,
but every failure path stops the run with the temporary copies of both
uploads (and any outputs already produced) left on disk. -/
theorem run_cleanup (f : RunFlags) :
    ((runPipeline f).1 = .success → (runPipeline f).2 = []) ∧
    ((runPipeline f).1 = .stopped →
      RunFile.tmpExcel ∈ (runPipeline f).2 ∧ RunFile.tmpPdf ∈ (runPipeline f).2) := by
  obtain ⟨a, b, c, d, e, g⟩ := f
  cases a <;> cases b <;> cases c <;> cases d <;> cases e <;> cases g <;> decide

/-- C4 witness: the all-successful run ends with no per-run files on
disk. -/
theorem run_cleanup_witness :
    (runPipeline ⟨true, true, true, true, true, true⟩).2 = [] :=
  (run_cleanup ⟨true, true, true, true, true, true⟩).1 (by decide)

theorem splitOnCommas_ne_nil (s : Str) : splitOnCommas s ≠ [] := by
  cases s with
  | nil => simp [splitOnCommas]
  | cons c cs =>
    simp only [splitOnCommas]
    cases h : splitOnCommas cs with
    | nil => simp
    | cons g gs => by_cases hc : c = ',' <;> simp [hc]

theorem mem_splitOnCommas_no_comma : ∀ {s c : Str}, c ∈ splitOnCommas s → ',' ∉ c := by
  intro s
  induction s with
  | nil =>
    intro c hc
    simp [splitOnCommas] at hc
    subst hc
    simp
  | cons a as ih =>
    intro c hc
    simp only [splitOnCommas] at hc
    cases h : splitOnCommas as with
    | nil => exact absurd h (splitOnCommas_ne_nil as)
    | cons g gs =>
      rw [h] at hc
      simp only at hc
      by_cases ha : a = ','
      · rw [if_pos ha] at hc
        rcases List.mem_cons.mp hc with rfl | hc'
        · simp
        · exact ih (by rw [h]; exact hc')
      · rw [if_neg ha] at hc
        rcases List.mem_cons.mp hc with rfl | hc'
        · intro hmem
          rcases List.mem_cons.mp hmem with h1 | h2
          · exact ha h1.symm
          · exact ih (by rw [h]; exact List.mem_cons_self g gs) h2
        · exact ih (by rw [h]; exact List.mem_cons.mpr (Or.inr hc'))

theorem splitOnCommas_eq_self {m : Str} (h : ',' ∉ m) : splitOnCommas m = [m] := by
  induction m with
  | nil => rfl
  | cons a as ih =>
    have ha : a ≠ ',' := fun he => h (he ▸ List.mem_cons_self a as)
    have has : ',' ∉ as := fun hm => h (List.mem_cons.mpr (Or.inr hm))
    simp only [splitOnCommas, ih has]
    rw [if_neg (fun he => ha he)]

theorem mem_pyStrip {s : Str} {a : Char} (h : a ∈ pyStrip s) : a ∈ s := by
  simp only [pyStrip, List.mem_reverse] at h
  have h2 := (List.dropWhile_sublist (l := (s.dropWhile Char.isWhitespace).reverse)
    Char.isWhitespace).subset h
  rw [List.mem_reverse] at h2
  exact (List.dropWhile_sublist (l := s) Char.isWhitespace).subset h2

theorem dropWhile_head_false {p : Char → Bool} :
    ∀ {u : Str} {a : Char} {v : Str}, u.dropWhile p = a :: v → p a = false := by
  intro u
  induction u with
  | nil => intro a v h; simp [List.dropWhile] at h
  | cons b bs ih =>
    intro a v h
    rw [List.dropWhile_cons] at h
    by_cases hb : p b = true
    · rw [if_pos hb] at h
      exact ih h
    · rw [if_neg hb] at h
      injection h with h1 _
      subst h1
      simpa using hb

theorem pyStrip_head_false {s : Str} {a : Char} {v : Str} (h : pyStrip s = a :: v) :
    a.isWhitespace = false := by
  have ht2 : ((s.dropWhile Char.isWhitespace).reverse.dropWhile Char.isWhitespace).getLast?
      = some a := by
    rw [← List.head?_reverse]
    show (pyStrip s).head? = some a
    rw [h]
    rfl
  obtain ⟨pre, hpre⟩ :=
    List.dropWhile_suffix (l := (s.dropWhile Char.isWhitespace).reverse) Char.isWhitespace
  have hne : (s.dropWhile Char.isWhitespace).reverse.dropWhile Char.isWhitespace ≠ [] := by
    intro h0
    rw [h0] at ht2
    simp at ht2
  have hlast : ((s.dropWhile Char.isWhitespace).reverse).getLast? = some a := by
    rw [← hpre, List.getLast?_append_of_ne_nil pre hne]
    exact ht2
  rw [List.getLast?_reverse] at hlast
  cases hd : s.dropWhile Char.isWhitespace with
  | nil => rw [hd] at hlast; simp at hlast
  | cons b bs =>
    rw [hd] at hlast
    simp only [List.head?_cons, Option.some.injEq] at hlast
    subst hlast
    exact dropWhile_head_false hd

theorem pyStrip_getLast_false {s : Str} {a : Char} (h : (pyStrip s).getLast? = some a) :
    a.isWhitespace = false := by
  rw [pyStrip, List.getLast?_reverse] at h
  cases hd : (s.dropWhile Char.isWhitespace).reverse.dropWhile Char.isWhitespace with
  | nil => rw [hd] at h; simp at h
  | cons b bs =>
    rw [hd] at h
    simp only [List.head?_cons, Option.some.injEq] at h
    subst h
    exact dropWhile_head_false hd

theorem pyStrip_eq_self {t : Str}
    (h1 : ∀ a, t.head? = some a → a.isWhitespace = false)
    (h2 : ∀ a, t.getLast? = some a → a.isWhitespace = false) :
    pyStrip t = t := by
  cases t with
  | nil => rfl
  | cons a t' =>
    have ha := h1 a rfl
    rw [pyStrip, List.dropWhile_cons, if_neg (by simp [ha])]
    cases hr : (a :: t').reverse with
    | nil => simp at hr
    | cons b r' =>
      have hb : b.isWhitespace = false := by
        apply h2
        rw [← List.head?_reverse, hr]
        rfl
      rw [List.dropWhile_cons, if_neg (by simp [hb]), ← hr, List.reverse_reverse]

theorem cellComponents_self {m : Str} (h : canonicalToken m) : cellComponents m = [m] := by
  obtain ⟨hne, hstrip, hup, hcomma⟩ := h
  rw [cellComponents, splitOnCommas_eq_self hcomma]
  simp only [List.filterMap_cons, List.filterMap_nil, hstrip]
  rw [if_neg hne, hup]

theorem row_components_canonical {cells : List Cell} :
    ∀ m ∈ row_components cells, canonicalToken m := by
  intro m hm
  rw [row_components, List.mem_dedup] at hm
  rw [List.mem_flatMap] at hm
  obtain ⟨c, _, hmc⟩ := hm
  cases c with
  | none => simp [cellContribution] at hmc
  | some s =>
    rw [cellContribution] at hmc
    by_cases hs : pyStrip s = []
    · rw [if_pos hs] at hmc; simp at hmc
    · rw [if_neg hs] at hmc
      rw [cellComponents, List.mem_filterMap] at hmc
      obtain ⟨chunk, hchunk, hkeep⟩ := hmc
      by_cases hcs : pyStrip chunk = []
      · rw [if_pos hcs] at hkeep; simp at hkeep
      · rw [if_neg hcs] at hkeep
        have hm : m = (pyStrip chunk).map Char.toUpper := by
          injection hkeep.symm
        subst hm
        refine ⟨by simpa using hcs, ?_, ?_, ?_⟩
        · apply pyStrip_eq_self
          · intro a hhead
            rw [List.head?_map] at hhead
            cases hh : (pyStrip chunk).head? with
            | none => rw [hh] at hhead; simp at hhead
            | some b =>
              rw [hh] at hhead
              simp at hhead
              subst hhead
              cases hc : pyStrip chunk with
              | nil => rw [hc] at hh; simp at hh
              | cons b' v =>
                rw [hc] at hh
                simp only [List.head?_cons, Option.some.injEq] at hh
                subst hh
                rw [toUpper_isWhitespace]
                exact pyStrip_head_false hc
          · intro a hlast
            rw [← List.head?_reverse, ← List.map_reverse, List.head?_map,
              List.head?_reverse] at hlast
            cases hh : (pyStrip chunk).getLast? with
            | none => rw [hh] at hlast; simp at hlast
            | some b =>
              rw [hh] at hlast
              simp at hlast
              subst hlast
              rw [toUpper_isWhitespace]
              exact pyStrip_getLast_false hh
        · rw [List.map_map]
          apply List.map_congr_left
          intro a _
          exact toUpper_toUpper a
        · intro hmem
          rw [List.mem_map] at hmem
          obtain ⟨a, ha, hua⟩ := hmem
          have ha' : a = ',' := toUpper_eq_comma a hua
          subst ha'
          exact mem_splitOnCommas_no_comma hchunk (mem_pyStrip ha)

theorem count_bridge (w : Str) (l : List Str) :
    l.count w = @List.count Str instBEqOfDecidableEq w l := by
  induction l with
  | nil => rfl
  | cons a as ih =>
    by_cases h : a = w <;> simp [List.count_cons, ih, h]

theorem flatMap_id_of_singleton {l : List Str} {f : Str → List Str}
    (h : ∀ m ∈ l, f m = [m]) : l.flatMap f = l := by
  induction l with
  | nil => rfl
  | cons a as ih =>
    rw [List.flatMap_cons, h a (List.mem_cons_self a as),
      ih (fun m hm => h m (List.mem_cons.mpr (Or.inr hm)))]
    rfl

theorem count_expanded_row {α : Type} (orig : α) (cells : List Cell) (w : Str) :
    ((expand_row_full orig cells).flatMap (fun p => cellComponents p.2)).count w
      = if (row_components cells).contains w then 1 else 0 := by
  by_cases hem : row_components cells = []
  · rw [expand_row_full, expand_row, hem]
    simp [cellComponents, splitOnCommas, pyStrip]
  · have hmap : (expand_row_full orig cells).flatMap (fun p => cellComponents p.2)
        = ((row_components cells).insertionSort (· ≤ ·)).flatMap cellComponents := by
      rw [expand_row_full, expand_row, if_neg (by simpa [List.isEmpty_iff] using hem)]
      rw [List.flatMap_map]
    rw [hmap, flatMap_id_of_singleton (fun m hm =>
      cellComponents_self (row_components_canonical m ((List.mem_insertionSort _).mp hm)))]
    rw [count_bridge]
    have hperm : @List.count Str instBEqOfDecidableEq w
          ((row_components cells).insertionSort (· ≤ ·))
        = @List.count Str instBEqOfDecidableEq w (row_components cells) :=
      (List.perm_insertionSort _ _).count_eq w
    rw [hperm]
    have hnd : (row_components cells).Nodup := List.nodup_dedup _
    rw [List.count_eq_of_nodup hnd]
    simp

/-- C9: identifiers split from a row's selected cells are normalized and
deduplicated per row before expansion, so the spreadsheet counter counts
an identifier once per row whose cells contain it (however many times it
repeats within that row), and accumulates multiplicity across rows. -/
theorem excel_counts_per_row {α : Type} (rows : List (α × List Cell)) (w : Str) :
    excel_counts (expand_table rows) w
      = rows.countP (fun rc => (row_components rc.2).contains w) := by
  induction rows with
  | nil => rfl
  | cons rc rest ih =>
    rw [excel_counts, expand_table, List.flatMap_cons, List.flatMap_append, List.count_append]
    rw [excel_counts] at ih
    rw [expand_table] at ih
    rw [ih, List.countP_cons, count_expanded_row]
    by_cases hw : (row_components rc.2).contains w = true <;> simp [hw] <;> omega

/-- C10: a row with no identifiers in its selected cells yields exactly
one output row with an empty Merged Components value; a row with n
distinct identifiers yields exactly n output rows, each carrying the
original row data unchanged, listing the n distinct identifiers in
ascending lexicographic order. -/
theorem expand_row_spec {α : Type} (orig : α) (cells : List Cell) :
    (row_components cells = [] → expand_row_full orig cells = [(orig, [])]) ∧
    (row_components cells ≠ [] →
      (expand_row_full orig cells).length = (row_components cells).length ∧
      (∀ pr ∈ expand_row_full orig cells, pr.1 = orig) ∧
      ((expand_row_full orig cells).map Prod.snd).Nodup ∧
      List.Sorted (· ≤ ·) ((expand_row_full orig cells).map Prod.snd) ∧
      (∀ w, w ∈ (expand_row_full orig cells).map Prod.snd ↔ w ∈ row_components cells)) := by
  constructor
  · intro h
    rw [expand_row_full, expand_row, h]
    rfl
  · intro h
    have hsnd : (expand_row_full orig cells).map Prod.snd
        = (row_components cells).insertionSort (· ≤ ·) := by
      rw [expand_row_full, expand_row, if_neg (by simpa [List.isEmpty_iff] using h)]
      rw [List.map_map]
      simp
    refine ⟨?_, ?_, ?_, ?_, ?_⟩
    · rw [expand_row_full, expand_row, if_neg (by simpa [List.isEmpty_iff] using h)]
      rw [List.length_map, List.length_insertionSort]
    · intro pr hpr
      rw [expand_row_full, List.mem_map] at hpr
      obtain ⟨m, _, hm⟩ := hpr
      rw [← hm]
    · rw [hsnd]
      exact (List.perm_insertionSort _ _).nodup_iff.mpr (List.nodup_dedup _)
    · rw [hsnd]
      exact List.sorted_insertionSort _ _
    · intro w
      rw [hsnd]
      exact List.mem_insertionSort _

/-- C10 witness: the single cell "b2,a1" yields two output rows, sorted
as A1 then B2, both preserving the original row value. -/
theorem expand_row_spec_witness :
    (expand_row_full (0 : Nat) [some ['b', '2', ',', 'a', '1']]).length
      = (row_components [some ['b', '2', ',', 'a', '1']]).length :=
  ((expand_row_spec 0 [some ['b', '2', ',', 'a', '1']]).2 (by decide)).1

end Schematic
